import Mathlib

/-!
Verification development for the iron_claw turn-processing core.

The Python source under `src/` is shallowly embedded here:

* `src/core/context_manager.py` (`ContextManager`)  →  `CMState`, `addMessage`
* `src/core/ai/router.py` (`Router._parse_tool_call`) →  `parseToolCallJson`
  together with a model of Python `json.loads` (`jsonLoadsChars`)
* `src/core/ai/router.py` (`Router.get_output_channel`,
  `Router.get_preferred_output_channel`, `Router._send_to_channel`,
  `Router._execute_tool`, `Router.process_message`) →  `getOutputChannel`,
  `getPreferredOutputChannel`, `sendToChannel`, `executeTool`, `runLoop`,
  `processMessageFrom`, `processMessage`
* the single-threaded asyncio execution of the daemon's handlers
  (`src/core/daemon.py`, `src/plugins/channels/console.py`,
  `src/core/scheduler/manager.py`) →  a cooperative-scheduling machine
  (`CoopState`, `doStep`, `Reach`).

External collaborators (LLM provider, tool plugins, channel transports,
environment variables) are modelled as oracles: the provider is a function
from its own call count and the message list to either a reply or a raised
exception, a tool plugin maps its argument object to either a result string
or a raised exception, and a channel invocation is recorded as a `Delivery`.
-/

namespace IronClaw

/-- One entry of the conversation context: a Python dict
`{"role": ..., "content": ...}` as built by `ContextManager.add_message`. -/
structure Msg where
  role : String
  content : String
deriving DecidableEq, Repr

/-- A Python value passed as `role`/`content` to `add_message`; only the
distinction "a `str`" vs "anything else" matters to the `isinstance` guard. -/
inductive PyObj where
  | str (s : String)
  | int (n : Int)
  | noneObj
deriving DecidableEq, Repr

/-- State of `ContextManager` (src/core/context_manager.py): the two
in-memory lists, the configured short-term limit, and the JSON files
(`messages.json`, `history.json`) modelled by the lists last written to them. -/
structure CMState where
  maxMessagesLimit : Nat
  messages : List Msg
  history : List Msg
  savedMessages : List Msg
  savedHistory : List Msg
deriving DecidableEq, Repr

/-- `ContextManager.max_history_limit = 100`, fixed in `__init__`. -/
def maxHistoryLimit : Nat := 100

/-- Python's `lst[-n:]` for `n ≥ 0`: the last `n` elements — except that
`lst[-0:]` is `lst[0:]`, i.e. the whole list. -/
def pySliceLastN (l : List α) (n : Nat) : List α :=
  if n = 0 then l else l.drop (l.length - n)

/-- `ContextManager.add_message(role, content)`: on non-`str` arguments it
returns without touching anything; otherwise it appends the new entry to both
lists, trims each with `lst[-limit:]` when it exceeds its limit, and saves
both files. -/
def addMessage (cm : CMState) (role content : PyObj) : CMState :=
  match role, content with
  | .str r, .str c =>
    let m : Msg := ⟨r, c⟩
    let messages := cm.messages ++ [m]
    let messages :=
      if cm.maxMessagesLimit < messages.length then
        pySliceLastN messages cm.maxMessagesLimit
      else messages
    let history := cm.history ++ [m]
    let history :=
      if maxHistoryLimit < history.length then
        pySliceLastN history maxHistoryLimit
      else history
    { cm with
      messages := messages, history := history,
      savedMessages := messages, savedHistory := history }
  | _, _ => cm

/-! ### JSON values and a model of Python `json.loads`

`Router._parse_tool_call` calls `json.loads` on a extracted substring; the
parser below models the default (strict) `json.loads` on such inputs.
Numbers are kept as their source lexeme: no claim below inspects a numeric
value. -/

/-- A parsed JSON value.  Object fields are kept in source order (Python's
dict keeps the last value for a duplicated key; lookups below mirror that). -/
inductive Json where
  | null
  | boolVal (b : Bool)
  | numVal (lexeme : String)
  | strVal (s : String)
  | arrVal (elems : List Json)
  | objVal (fields : List (String × Json))

/-- `dict.get(k)` on a parsed JSON object: last binding wins, `None`
(here `none`) when the key is absent or the value is not an object. -/
def jGet : Json → String → Option Json
  | .objVal fields, k => (fields.reverse.find? (fun p => p.1 == k)).map (·.2)
  | _, _ => none

def lbrace : Char := Char.ofNat 123
def rbrace : Char := Char.ofNat 125

/-- JSON whitespace as skipped by Python's decoder. -/
def isJsonWs (c : Char) : Bool :=
  c == ' ' || c == '\t' || c == '\n' || c == '\r'

def skipWs : List Char → List Char
  | [] => []
  | c :: cs => if isJsonWs c then skipWs cs else c :: cs

def hexVal (c : Char) : Option Nat :=
  if '0' ≤ c ∧ c ≤ '9' then some (c.toNat - '0'.toNat)
  else if 'a' ≤ c ∧ c ≤ 'f' then some (c.toNat - 'a'.toNat + 10)
  else if 'A' ≤ c ∧ c ≤ 'F' then some (c.toNat - 'A'.toNat + 10)
  else none

/-- The short escapes of JSON strings. -/
def escChar : Char → Option Char
  | '"' => some '"'
  | '\\' => some '\\'
  | '/' => some '/'
  | 'b' => some (Char.ofNat 8)
  | 'f' => some (Char.ofNat 12)
  | 'n' => some '\n'
  | 'r' => some '\r'
  | 't' => some '\t'
  | _ => none

/-- Body of a JSON string literal, positioned after the opening quote.
Returns the decoded characters and the rest after the closing quote.
Unescaped control characters are rejected (strict `json.loads`).
`Char.ofNat` of a lone-surrogate `\uXXXX` value falls back to `'\0'`;
no claim exercises that corner. -/
def parseStrBody : List Char → Option (List Char × List Char)
  | [] => none
  | '\\' :: rest =>
    match rest with
    | 'u' :: h1 :: h2 :: h3 :: h4 :: cs =>
      match hexVal h1, hexVal h2, hexVal h3, hexVal h4 with
      | some a, some b, some c, some d =>
        match parseStrBody cs with
        | some (out, rem) => some (Char.ofNat (((a * 16 + b) * 16 + c) * 16 + d) :: out, rem)
        | none => none
      | _, _, _, _ => none
    | e :: cs =>
      match escChar e with
      | some c =>
        match parseStrBody cs with
        | some (out, rem) => some (c :: out, rem)
        | none => none
      | none => none
    | [] => none
  | c :: cs =>
    if c == '"' then some ([], cs)
    else if c.toNat < 32 then none
    else
      match parseStrBody cs with
      | some (out, rem) => some (c :: out, rem)
      | none => none

/-- Longest prefix of decimal digits. -/
def spanDigits : List Char → List Char × List Char
  | [] => ([], [])
  | c :: cs =>
    if c.isDigit then
      let (ds, rest) := spanDigits cs
      (c :: ds, rest)
    else ([], c :: cs)

/-- The JSON number grammar `-?(0|[1-9][0-9]*)(.[0-9]+)?([eE][+-]?[0-9]+)?`,
returning the lexeme. -/
def parseNumLexeme (cs : List Char) : Option (List Char × List Char) :=
  let (sign, cs1) : List Char × List Char :=
    match cs with
    | '-' :: r => (['-'], r)
    | _ => ([], cs)
  let intPart : Option (List Char × List Char) :=
    match cs1 with
    | '0' :: r => some (['0'], r)
    | c :: r =>
      if c.isDigit then
        let (ds, rest) := spanDigits r
        some (c :: ds, rest)
      else none
    | [] => none
  match intPart with
  | none => none
  | some (ip, cs2) =>
    let fracPart : Option (List Char × List Char) :=
      match cs2 with
      | '.' :: r =>
        let (ds, rest) := spanDigits r
        if ds.isEmpty then none else some ('.' :: ds, rest)
      | _ => some ([], cs2)
    match fracPart with
    | none => none
    | some (fp, cs3) =>
      let expPart : Option (List Char × List Char) :=
        match cs3 with
        | e :: r =>
          if e == 'e' || e == 'E' then
            let (sgn, r1) : List Char × List Char :=
              match r with
              | '+' :: r2 => (['+'], r2)
              | '-' :: r2 => (['-'], r2)
              | _ => ([], r)
            let (ds, rest) := spanDigits r1
            if ds.isEmpty then none else some (e :: (sgn ++ ds), rest)
          else some ([], cs3)
        | [] => some ([], cs3)
      match expPart with
      | none => none
      | some (ep, cs4) => some (sign ++ ip ++ fp ++ ep, cs4)

mutual

/-- One JSON value, skipping leading whitespace; `fuel` bounds the nesting
(callers supply more than the input length, which always suffices). -/
def parseJsonVal : Nat → List Char → Option (Json × List Char)
  | 0, _ => none
  | fuel + 1, cs =>
    match skipWs cs with
    | [] => none
    | c :: rest =>
      if c == lbrace then parseObjBody fuel rest
      else if c == '[' then parseArrBody fuel rest
      else if c == '"' then
        match parseStrBody rest with
        | some (out, rem) => some (.strVal (String.mk out), rem)
        | none => none
      else
        let cs' := c :: rest
        if ['t','r','u','e'].isPrefixOf cs' then some (.boolVal true, cs'.drop 4)
        else if ['f','a','l','s','e'].isPrefixOf cs' then some (.boolVal false, cs'.drop 5)
        else if ['n','u','l','l'].isPrefixOf cs' then some (.null, cs'.drop 4)
        else
          match parseNumLexeme cs' with
          | some (lex, rem) => some (.numVal (String.mk lex), rem)
          | none =>
            if ['N','a','N'].isPrefixOf cs' then some (.numVal "NaN", cs'.drop 3)
            else if ['I','n','f','i','n','i','t','y'].isPrefixOf cs' then
              some (.numVal "Infinity", cs'.drop 8)
            else if ['-','I','n','f','i','n','i','t','y'].isPrefixOf cs' then
              some (.numVal "-Infinity", cs'.drop 9)
            else none

/-- Object body, positioned after the opening brace. -/
def parseObjBody : Nat → List Char → Option (Json × List Char)
  | 0, _ => none
  | fuel + 1, cs =>
    match skipWs cs with
    | [] => none
    | c :: rest =>
      if c == rbrace then some (.objVal [], rest)
      else if c == '"' then
        match parseStrBody rest with
        | none => none
        | some (key, afterKey) =>
          match skipWs afterKey with
          | ':' :: afterColon =>
            match parseJsonVal fuel afterColon with
            | none => none
            | some (v, afterVal) =>
              parseObjRest fuel [(String.mk key, v)] afterVal
          | _ => none
      else none

/-- Remaining members of an object, after a complete member. -/
def parseObjRest : Nat → List (String × Json) → List Char → Option (Json × List Char)
  | 0, _, _ => none
  | fuel + 1, acc, cs =>
    match skipWs cs with
    | [] => none
    | c :: rest =>
      if c == rbrace then some (.objVal acc, rest)
      else if c == ',' then
        match skipWs rest with
        | '"' :: afterQuote =>
          match parseStrBody afterQuote with
          | none => none
          | some (key, afterKey) =>
            match skipWs afterKey with
            | ':' :: afterColon =>
              match parseJsonVal fuel afterColon with
              | none => none
              | some (v, afterVal) =>
                parseObjRest fuel (acc ++ [(String.mk key, v)]) afterVal
            | _ => none
        | _ => none
      else none

/-- Array body, positioned after the opening bracket. -/
def parseArrBody : Nat → List Char → Option (Json × List Char)
  | 0, _ => none
  | fuel + 1, cs =>
    match skipWs cs with
    | [] => none
    | c :: rest =>
      if c == ']' then some (.arrVal [], rest)
      else
        match parseJsonVal fuel (c :: rest) with
        | none => none
        | some (v, afterVal) => parseArrRest fuel [v] afterVal

/-- Remaining elements of an array, after a complete element. -/
def parseArrRest : Nat → List Json → List Char → Option (Json × List Char)
  | 0, _, _ => none
  | fuel + 1, acc, cs =>
    match skipWs cs with
    | [] => none
    | c :: rest =>
      if c == ']' then some (.arrVal acc, rest)
      else if c == ',' then
        match parseJsonVal fuel rest with
        | none => none
        | some (v, afterVal) => parseArrRest fuel (acc ++ [v]) afterVal
      else none

end

/-- `json.loads` on a character list: one JSON document, with only
whitespace allowed after it. -/
def jsonLoadsChars (cs : List Char) : Option Json :=
  match parseJsonVal (2 * cs.length + 8) cs with
  | some (v, rest) => if (skipWs rest).isEmpty then some v else none
  | none => none

/-- `json.loads` on a string. -/
def jsonLoads (s : String) : Option Json :=
  jsonLoadsChars s.toList

/-! ### `Router._parse_tool_call` (src/core/ai/router.py lines 260-283)

The Python code searches the text for the literal substring `{"tool":`
(`text.find('{"tool":')`), then walks forward counting `{` and `}` until the
count returns to zero, and feeds that slice to `json.loads`; any failure
(no marker, never balanced, `json.loads` raising) yields `None`. -/

/-- The literal needle of `text.find('\x7b"tool":')`. -/
def toolMarker : List Char := "\x7b\"tool\":".toList

/-- Python `str.find`: index of the first occurrence of `toolMarker`. -/
def findToolMarker : List Char → Option Nat
  | [] => none
  | c :: cs =>
    if toolMarker.isPrefixOf (c :: cs) then some 0
    else (findToolMarker cs).map (· + 1)

/-- The brace-counting loop of `_parse_tool_call`, starting with count `k`:
returns the consumed slice up to and including the `\x7d` that brings the
count to zero, or `none` when the scan runs off the end. -/
def braceScan : Int → List Char → Option (List Char)
  | _, [] => none
  | k, c :: cs =>
    if c == lbrace then (braceScan (k + 1) cs).map (c :: ·)
    else if c == rbrace then
      if k - 1 = 0 then some [c]
      else (braceScan (k - 1) cs).map (c :: ·)
    else (braceScan k cs).map (c :: ·)

/-- The slice `text[start_idx : j+1]` that `_parse_tool_call` hands to
`json.loads`, when the scan balances. -/
def extractToolSlice (cs : List Char) : Option (List Char) :=
  match findToolMarker cs with
  | none => none
  | some i => braceScan 0 (cs.drop i)

/-- `Router._parse_tool_call(text)`: the parsed JSON object, or `none` for
any miss or parse failure (the Python code catches every exception and
returns `None`; it never raises). -/
def parseToolCallJson (text : String) : Option Json :=
  match extractToolSlice text.toList with
  | none => none
  | some slice => jsonLoadsChars slice

/-! ### The parser the specification describes (for comparison)

Spec §4.3: work inside the first fenced code block when one is present,
otherwise on the raw text; take the substring from the first `\x7b` to the
last `\x7d`; parse it as JSON; an object with a `tool` key is a ToolCall
(`name` = `tool`, `args` = `args` or empty map, `optionalUserMessage` =
`message` if present).  This definition follows the spec's words, to be
compared with `parseToolCallJson` above. -/

/-- A ToolCall as the spec's data model defines it. -/
structure SpecToolCall where
  name : Json
  args : Json
  optionalUserMessage : Option Json

/-- Index of the first occurrence of a character. -/
def firstIdxOf (cs : List Char) (c : Char) : Option Nat :=
  cs.findIdx? (· == c)

/-- Index of the last occurrence of a character. -/
def lastIdxOf (cs : List Char) (c : Char) : Option Nat :=
  match firstIdxOf cs.reverse c with
  | none => none
  | some i => some (cs.length - 1 - i)

/-- The first fenced code block: the region between the first pair of
 ``` fences, with an optional language tag consumed up to the first
newline.  Spec-modelled reading of "inside the first such fence". -/
def fenceDelim : List Char := ['`', '`', '`']

def splitAtSeq (needle : List Char) : List Char → Option (List Char × List Char)
  | [] => if needle.isEmpty then some ([], []) else none
  | c :: cs =>
    if needle.isPrefixOf (c :: cs) then some ([], (c :: cs).drop needle.length)
    else (splitAtSeq needle cs).map (fun p => (c :: p.1, p.2))

def specWorkingText (cs : List Char) : List Char :=
  match splitAtSeq fenceDelim cs with
  | none => cs
  | some (_, afterOpen) =>
    let inner :=
      match splitAtSeq fenceDelim afterOpen with
      | none => afterOpen
      | some (body, _) => body
    match splitAtSeq ['\n'] inner with
    | some (tag, rest) => if tag.all (fun c => c.isAlphanum) then rest else inner
    | none => inner

/-- The spec's parser: first `\x7b` … last `\x7d` of the working text, JSON
parse, then an object with a `tool` key becomes a ToolCall. -/
def specParseToolCall (text : String) : Option SpecToolCall :=
  let w := specWorkingText text.toList
  match firstIdxOf w lbrace, lastIdxOf w rbrace with
  | some i, some j =>
    if i ≤ j then
      match jsonLoadsChars ((w.drop i).take (j + 1 - i)) with
      | some v =>
        match jGet v "tool" with
        | some nm =>
          some ⟨nm, (jGet v "args").getD (.objVal []), jGet v "message"⟩
        | none => none
      | none => none
    else none
  | _, _ => none

/-! ### Router components: channels, tools, output routing

External components carry only what the router reads: a name, the enabled
flag, and (for tools) the `execute`/`run` callable, modelled as a function
from the argument object to either a result (already through Python `str`)
or a raised exception's message.  A `**args` mismatch raising `TypeError`
inside the call is covered by the same `.error` case, as the Python
`except` around the invocation catches both. -/

structure Channel where
  name : String
  enabled : Bool
deriving DecidableEq, Repr

structure ToolPlugin where
  name : String
  enabled : Bool
  run : Json → Except String String

/-- One `channel.send_message(text, target)` invocation made by
`Router._send_to_channel` (failures are caught there, so the invocation
itself is the observable event). -/
structure Delivery where
  channel : String
  text : String
  target : Option String
deriving DecidableEq, Repr

/-- State of `Router` that the turn pipeline reads or writes. -/
structure RouterState where
  cm : CMState
  activeChannels : List Channel
  lastChannelName : Option String
  tools : List ToolPlugin
  telegramAdminId : Option String

/-- Python truthiness of an optional string (`None` and `""` are falsy). -/
def truthyS : Option String → Bool
  | none => false
  | some s => !(s == "")

/-- Python `a or b` on optional strings. -/
def pyOrStr (a b : Option String) : Option String :=
  match a with
  | none => b
  | some s => if s == "" then b else some s

/-- `Router.get_preferred_output_channel`: the first enabled `telegram_bot`
channel when `TELEGRAM_ADMIN_ID` is set (truthy), else the first channel
named `console` (possibly none). -/
def getPreferredOutputChannel (r : RouterState) : Option Channel × Option String :=
  match
    (if truthyS r.telegramAdminId then
      r.activeChannels.find? (fun c => c.name == "telegram_bot" && c.enabled)
    else none) with
  | some c => (some c, r.telegramAdminId)
  | none => (r.activeChannels.find? (fun c => c.name == "console"), none)

/-- `Router.get_output_channel(source)`: prefer the channel named by
`source or last_channel_name`; a found `telegram_bot` needs a truthy admin
id (target = admin id), any other found channel gets target `None`;
otherwise fall back to the preferred channel. -/
def getOutputChannel (r : RouterState) (source : Option String) : Option Channel × Option String :=
  let targetName := pyOrStr source r.lastChannelName
  let viaName : Option (Channel × Option String) :=
    match targetName with
    | none => none
    | some tn =>
      if tn == "" then none
      else
        match r.activeChannels.find? (fun c => c.name == tn) with
        | none => none
        | some ch =>
          if ch.name == "telegram_bot" then
            if truthyS r.telegramAdminId then some (ch, r.telegramAdminId) else none
          else some (ch, none)
  match viaName with
  | some (c, t) => (some c, t)
  | none => getPreferredOutputChannel r

/-- `Router._send_to_channel(text, source)`: resolve one channel and invoke
its `send_message` once; with no channel resolved, log and send nothing.
Send failures are caught, so the invocation list is the outcome. -/
def sendToChannel (r : RouterState) (text : String) (source : Option String) : List Delivery :=
  match getOutputChannel r source with
  | (none, _) => []
  | (some ch, target) => [⟨ch.name, text, target⟩]

mutual

/-- Python `repr()` of nested JSON-derived values; numbers are rendered by
lexeme and strings without escape handling — no claim below reaches those
corners. -/
def jsonPyRepr : Json → String
  | .null => "None"
  | .boolVal true => "True"
  | .boolVal false => "False"
  | .numVal l => l
  | .strVal s => "'" ++ s ++ "'"
  | .arrVal es => "[" ++ jsonPyReprElems es ++ "]"
  | .objVal fs => "\x7b" ++ jsonPyReprFields fs ++ "\x7d"

def jsonPyReprElems : List Json → String
  | [] => ""
  | [x] => jsonPyRepr x
  | x :: xs => jsonPyRepr x ++ ", " ++ jsonPyReprElems xs

def jsonPyReprFields : List (String × Json) → String
  | [] => ""
  | [(k, v)] => "'" ++ k ++ "': " ++ jsonPyRepr v
  | (k, v) :: xs => "'" ++ k ++ "': " ++ jsonPyRepr v ++ ", " ++ jsonPyReprFields xs

end

/-- Python `str()` of a JSON-derived value as interpolated by an f-string. -/
def pyStrOfJson (j : Json) : String :=
  match j with
  | .strVal s => s
  | _ => jsonPyRepr j

/-- `str()` of `tool_call.get("tool")`, which may be Python `None`. -/
def pyStrOpt : Option Json → String
  | none => "None"
  | some j => pyStrOfJson j

/-- The `t.name == tool_name` comparison in `_execute_tool`: a Python `str`
equals the looked-up value only when that value is the same `str`. -/
def pyEqStrJson (s : String) : Option Json → Bool
  | some (.strVal s2) => s == s2
  | _ => false

/-- The `next((t for t in enabled_tools if t.name == tool_name), None)`
lookup over `[p for p in tools if p.is_enabled()]`. -/
def enabledLookup (tools : List ToolPlugin) (toolName : Option Json) : Option ToolPlugin :=
  (tools.filter (fun t => t.enabled)).find? (fun t => pyEqStrJson t.name toolName)

/-- `Router._execute_tool(tool_name, args)`: absent/disabled tools yield the
"not found or not enabled" string; an exception from the invocation yields
the "Error executing" string; otherwise `str(result)`. -/
def executeTool (tools : List ToolPlugin) (toolName : Option Json) (args : Json) : String :=
  match enabledLookup tools toolName with
  | none => "Error: Tool '" ++ pyStrOpt toolName ++ "' not found or not enabled."
  | some t =>
    match t.run args with
    | .ok s => s
    | .error e => "Error executing tool '" ++ pyStrOpt toolName ++ "': " ++ e

/-! ### `Router.process_message` (src/core/ai/router.py lines 210-257)

The LLM provider collaborator is an oracle: a function from its own call
count (its internal state) and the message list passed to `chat` to either
the reply text or a raised exception's message.  `process_message` itself
is a synchronous Python function with no `try` around the provider call:
a provider exception propagates out, which the `exn` field records;
`deliveries` lists the `send_message` invocations that happened before. -/

def Provider : Type := Nat → List Msg → Except String String

/-- Outcome of one `process_message` invocation. -/
structure TurnResult where
  router : RouterState
  deliveries : List Delivery
  calls : Nat
  exn : Option String

/-- Shorthand for `self.context_manager.add_message(role, content)` with the
string arguments the router always passes. -/
def addCtx (r : RouterState) (role content : String) : RouterState :=
  { r with cm := addMessage r.cm (.str role) (.str content) }

/-- The `[SYSTEM NOTE: ...]` injected after `max_iterations` tool rounds. -/
def errorInjectionText : String :=
  "[SYSTEM NOTE: You have been unable to complete the user's request because you are stuck in a loop of calling tools. Apologize to the user, explain that you have encountered an internal error, and ask them to try rephrasing their request.]"

/-- The `"[TOOL RESULT for {tool_name}]: {tool_result}"` context entry. -/
def toolResultEntry (tools : List ToolPlugin) (j : Json) : String :=
  let toolName := jGet j "tool"
  "[TOOL RESULT for " ++ pyStrOpt toolName ++ "]: " ++
    executeTool tools toolName ((jGet j "args").getD (.objVal []))

/-- The `for i in range(max_iterations)` body of `process_message`, plus the
post-loop injection path when the range is exhausted.  `base` offsets the
provider's call count across turns; `calls` counts the `chat` invocations
of this turn (an invocation that raises is counted before propagating). -/
def runLoop (prov : Provider) (base : Nat) (src : String) :
    Nat → RouterState → Nat → TurnResult
  | 0, r, calls =>
    let r1 := addCtx r "user" errorInjectionText
    match prov (base + calls) r1.cm.history with
    | .error e => ⟨r1, [], calls + 1, some e⟩
    | .ok fin => ⟨r1, sendToChannel r1 fin (some src), calls + 1, none⟩
  | fuel + 1, r, calls =>
    match prov (base + calls) r.cm.history with
    | .error e => ⟨r, [], calls + 1, some e⟩
    | .ok resp =>
      let r1 := addCtx r "assistant" resp
      match parseToolCallJson resp with
      | some j =>
        let r2 := addCtx r1 "user" (toolResultEntry r1.tools j)
        runLoop prov base src fuel r2 (calls + 1)
      | none => ⟨r1, sendToChannel r1 resp (some src), calls + 1, none⟩

/-- `max_iterations = 5` in `process_message`. -/
def maxIterations : Nat := 5

/-- `Router.process_message(user_message, source)` with the provider's call
count starting at `base`: record `last_channel_name`, reject only the empty
message (with the "Input cannot be empty." send), append the user entry and
run the bounded loop. -/
def processMessageFrom (prov : Provider) (base : Nat) (r0 : RouterState)
    (userMessage src : String) : TurnResult :=
  let r := { r0 with lastChannelName := some src }
  if userMessage == "" then
    ⟨r, sendToChannel r "Input cannot be empty." (some src), 0, none⟩
  else
    runLoop prov base src maxIterations (addCtx r "user" userMessage) 0

def processMessage (prov : Provider) (r0 : RouterState) (userMessage src : String) : TurnResult :=
  processMessageFrom prov 0 r0 userMessage src

/-- The single-threaded event loop processing queued submissions in arrival
order: each `(source, text)` pair is handled by one synchronous
`process_message` call; the provider oracle's call count carries across
turns.  (An exception aborts only its own turn; the fold records it in that
turn's result — the theorems below that consume several turns assume a
non-raising provider, so the continuation after an exception is never
load-bearing.) -/
def runSubmissions (prov : Provider) :
    RouterState → Nat → List (String × String) → RouterState × List TurnResult
  | r, _, [] => (r, [])
  | r, base, (src, m) :: rest =>
    let t := processMessageFrom prov base r m src
    let (rf, ts) := runSubmissions prov t.router (base + t.calls) rest
    (rf, t :: ts)

/-! ### Cooperative single-threaded execution of the handlers

The daemon runs everything on one asyncio event loop; a running callback
can only lose control at an `await` (a suspension point).  Each inbound
source is one task over atomic micro-steps tagged with whether the step
ends at a suspension point:

* the console channel's loop (`src/plugins/channels/console.py`): `await
  asyncio.to_thread(Prompt.ask, ...)` — a suspension — then a plain
  synchronous call `router.process_message(...)`, repeated;
* the core scheduler's loops (`src/core/scheduler/manager.py`): `await
  asyncio.sleep`/cron wakeups — suspensions — then
  `self.router.process_message(...)`, whose evaluation runs the whole
  synchronous turn before the `await` of its (non-awaitable) result;
* the IPC handler (`src/core/daemon.py` `handle_ipc_client`): `await
  reader.readline()` — a suspension — then
  `self.router.process_message(message, source=..., writer=writer)`, which
  raises `TypeError` at the call (no `writer` parameter on
  `Router.process_message`), is caught by the handler's `except`, and so
  never starts a turn.

`process_message` contains no `await` and spawns no thread, so every step
between a turn's start and its end is non-suspending. -/

inductive Act where
  | turnStart (id : Nat)
  | turnEnd (id : Nat)
  | internal
deriving DecidableEq, Repr

/-- A micro-step: its action, and whether it ends at a suspension point. -/
abbrev TStep := Act × Bool

/-- Shape check for a task's remaining steps: in mode `none` (no turn open
in this task) a turn may open, with no suspension on its opening step; in
mode `some i` (turn `i` open) every step up to the matching `turnEnd i` is
non-suspending, and the task cannot end or open another turn first. -/
def atomicT : Option Nat → List TStep → Bool
  | none, [] => true
  | some _, [] => false
  | none, (.turnStart i, susp) :: rest => !susp && atomicT (some i) rest
  | none, (.turnEnd _, _) :: _ => false
  | none, (.internal, _) :: rest => atomicT none rest
  | some i, (.turnEnd j, _) :: rest => (j == i) && atomicT none rest
  | some _, (.turnStart _, _) :: _ => false
  | some i, (.internal, susp) :: rest => !susp && atomicT (some i) rest

/-- One synchronous `process_message` invocation: `bodyLen` abstracts its
internal operation count (provider calls, tool calls, sends), all
non-suspending. -/
def turnBlock (id bodyLen : Nat) : List TStep :=
  (Act.turnStart id, false) ::
    List.replicate bodyLen (Act.internal, false) ++ [(Act.turnEnd id, false)]

/-- A console-channel or scheduler task: awaiting input (suspension), then
one synchronous turn, repeated per submission `(id, bodyLen)`. -/
def sourceLoopTask : List (Nat × Nat) → List TStep
  | [] => []
  | (id, n) :: rest => (Act.internal, true) :: turnBlock id n ++ sourceLoopTask rest

/-- The IPC handler task: `readline` suspensions only — its
`process_message(..., writer=writer)` call raises `TypeError` before any
turn begins. -/
def ipcTask (n : Nat) : List TStep := List.replicate n (Act.internal, true)

/-- Tasks generated by the three inbound sources. -/
inductive SourceTask : List TStep → Prop
  | console (subs : List (Nat × Nat)) : SourceTask (sourceLoopTask subs)
  | scheduler (subs : List (Nat × Nat)) : SourceTask (sourceLoopTask subs)
  | ipc (n : Nat) : SourceTask (ipcTask n)

/-- Event-loop state: remaining steps per task, the last-run task together
with whether its last step suspended, and the ids of turns started but not
yet ended. -/
structure CoopState where
  rem : List (List TStep)
  last : Option (Nat × Bool)
  flight : List Nat

/-- The loop may hand control to task `t` only if the previously running
task is `t` itself, suspended, or finished. -/
def pickAllowed (s : CoopState) (t : Nat) : Bool :=
  match s.last with
  | none => true
  | some (p, susp) => p == t || susp || (s.rem.getD p []).isEmpty

def canPick (s : CoopState) (t : Nat) : Prop :=
  s.rem.getD t [] ≠ [] ∧ pickAllowed s t = true

/-- Execute the next micro-step of task `t`. -/
def doStep (s : CoopState) (t : Nat) : CoopState :=
  match s.rem.getD t [] with
  | [] => s
  | (a, susp) :: rest =>
    { rem := s.rem.set t rest
      last := some (t, susp)
      flight :=
        match a with
        | .turnStart i => s.flight ++ [i]
        | .turnEnd i => s.flight.erase i
        | .internal => s.flight }

/-- States reachable by the cooperative loop from the given tasks. -/
inductive Reach (tasks : List (List TStep)) : CoopState → Prop
  | init : Reach tasks ⟨tasks, none, []⟩
  | step {s : CoopState} {t : Nat} :
      Reach tasks s → canPick s t → Reach tasks (doStep s t)

/-! ### Lemmas: single-flight of the cooperative loop -/

theorem getD_set_self {α : Type} : ∀ (l : List α) (t : Nat) (x d : α),
    t < l.length → (l.set t x).getD t d = x := by
  intro l
  induction l with
  | nil => intro t x d h; simp at h
  | cons a as ih =>
    intro t x d h
    cases t with
    | zero => simp [List.set, List.getD]
    | succ n =>
      simp only [List.set, List.getD_cons_succ]
      exact ih n x d (by simpa using h)

theorem getD_set_ne {α : Type} : ∀ (l : List α) (t u : Nat) (x d : α),
    u ≠ t → (l.set t x).getD u d = l.getD u d := by
  intro l
  induction l with
  | nil => intro t u x d _; simp [List.set]
  | cons a as ih =>
    intro t u x d h
    cases t with
    | zero =>
      cases u with
      | zero => exact absurd rfl h
      | succ m => simp [List.set, List.getD_cons_succ]
    | succ n =>
      cases u with
      | zero => simp [List.set, List.getD_cons_zero]
      | succ m =>
        simp only [List.set, List.getD_cons_succ]
        exact ih n m x d (fun hc => h (by rw [hc]))

theorem getD_nonnil_lt {α : Type} (l : List (List α)) (t : Nat)
    (h : l.getD t [] ≠ []) : t < l.length := by
  by_contra hc
  exact h (List.getD_eq_default _ _ (le_of_not_lt hc))

theorem atomicT_some_ne_nil {i : Nat} {l : List TStep}
    (h : atomicT (some i) l = true) : l ≠ [] := by
  intro hc
  rw [hc] at h
  simp [atomicT] at h

/-- The loop invariant: either no turn is in flight and every task is in
closed mode, or exactly one turn is in flight, owned by the last-run task,
which did not suspend and whose remaining steps close the turn before any
suspension; every other task is in closed mode. -/
def CoopInv (s : CoopState) : Prop :=
  (s.flight = [] ∧ ∀ u, atomicT none (s.rem.getD u []) = true) ∨
  (∃ i t, s.flight = [i] ∧ s.last = some (t, false) ∧
    atomicT (some i) (s.rem.getD t []) = true ∧
    ∀ u, u ≠ t → atomicT none (s.rem.getD u []) = true)

theorem coopInv_preserved {s : CoopState} {t : Nat}
    (hinv : CoopInv s) (hp : canPick s t) : CoopInv (doStep s t) := by
  obtain ⟨hne, hallow⟩ := hp
  have hlt : t < s.rem.length := getD_nonnil_lt _ _ hne
  rcases hinv with ⟨hf, hall⟩ | ⟨i, t0, hf, hlast, hat, hothers⟩
  · -- no turn in flight
    cases heq : s.rem.getD t [] with
    | nil => exact absurd heq hne
    | cons st rest =>
      obtain ⟨a, susp⟩ := st
      have hshape := hall t
      rw [heq] at hshape
      unfold doStep
      rw [heq]
      cases a with
      | internal =>
        left
        refine ⟨hf, fun u => ?_⟩
        by_cases hu : u = t
        · subst hu
          rw [getD_set_self _ _ _ _ hlt]
          simpa [atomicT] using hshape
        · rw [getD_set_ne _ _ _ _ _ hu]
          exact hall u
      | turnStart i =>
        simp only [atomicT, Bool.and_eq_true, Bool.not_eq_true'] at hshape
        right
        refine ⟨i, t, by simp [hf], by simp [hshape.1], ?_, ?_⟩
        · rw [getD_set_self _ _ _ _ hlt]
          exact hshape.2
        · intro u hu
          rw [getD_set_ne _ _ _ _ _ hu]
          exact hall u
      | turnEnd i => simp [atomicT] at hshape
  · -- one turn in flight, owned by t0
    have ht0ne : s.rem.getD t0 [] ≠ [] := atomicT_some_ne_nil hat
    have htt0 : t = t0 := by
      simp only [pickAllowed, hlast] at hallow
      rcases Bool.or_eq_true_iff.mp hallow with h1 | h2
      · rcases Bool.or_eq_true_iff.mp h1 with he | hs
        · exact (Nat.beq_eq.mp (by simpa using he)).symm
        · simp at hs
      · exact absurd (List.isEmpty_iff.mp h2) ht0ne
    subst htt0
    cases heq : s.rem.getD t [] with
    | nil => exact absurd heq hne
    | cons st rest =>
      obtain ⟨a, susp⟩ := st
      have hshape := hat
      rw [heq] at hshape
      unfold doStep
      rw [heq]
      cases a with
      | internal =>
        simp only [atomicT, Bool.and_eq_true, Bool.not_eq_true'] at hshape
        right
        refine ⟨i, t, by simpa using hf, by simp [hshape.1], ?_, ?_⟩
        · rw [getD_set_self _ _ _ _ hlt]
          exact hshape.2
        · intro u hu
          rw [getD_set_ne _ _ _ _ _ hu]
          exact hothers u hu
      | turnStart j => simp [atomicT] at hshape
      | turnEnd j =>
        simp only [atomicT, Bool.and_eq_true, beq_iff_eq] at hshape
        left
        constructor
        · rw [hf, hshape.1]
          simp [List.erase_cons_head]
        · intro u
          by_cases hu : u = t
          · subst hu
            rw [getD_set_self _ _ _ _ hlt]
            exact hshape.2
          · rw [getD_set_ne _ _ _ _ _ hu]
            exact hothers u hu

theorem sourceTask_atomicT {l : List TStep} (h : SourceTask l) :
    atomicT none l = true := by
  have hrep : ∀ (n : Nat) (i : Nat) (tail : List TStep),
      atomicT (some i) (List.replicate n (Act.internal, false) ++ tail) =
      atomicT (some i) tail := by
    intro n
    induction n with
    | zero => intro i tail; rfl
    | succ m ih => intro i tail; simp [List.replicate, atomicT, ih]
  have hblock : ∀ (id n : Nat) (tail : List TStep),
      atomicT none (turnBlock id n ++ tail) = atomicT none tail := by
    intro id n tail
    have hre : turnBlock id n ++ tail = (Act.turnStart id, false) ::
        (List.replicate n (Act.internal, false) ++ ((Act.turnEnd id, false) :: tail)) := by
      simp [turnBlock]
    rw [hre]
    simp only [atomicT, Bool.not_false, Bool.true_and]
    rw [hrep]
    simp [atomicT]
  have hloop : ∀ subs : List (Nat × Nat),
      atomicT none (sourceLoopTask subs) = true := by
    intro subs
    induction subs with
    | nil => rfl
    | cons p rest ih =>
      obtain ⟨id, n⟩ := p
      have hre : sourceLoopTask ((id, n) :: rest) =
          (Act.internal, true) :: (turnBlock id n ++ sourceLoopTask rest) := rfl
      rw [hre]
      have hstep : atomicT none
          ((Act.internal, true) :: (turnBlock id n ++ sourceLoopTask rest)) =
          atomicT none (turnBlock id n ++ sourceLoopTask rest) := rfl
      rw [hstep, hblock]
      exact ih
  cases h with
  | console subs => exact hloop subs
  | scheduler subs => exact hloop subs
  | ipc n =>
    induction n with
    | zero => rfl
    | succ m ih => simpa [ipcTask, List.replicate, atomicT] using ih

theorem coopInv_of_reach {tasks : List (List TStep)}
    (hsrc : ∀ τ ∈ tasks, SourceTask τ) {s : CoopState}
    (h : Reach tasks s) : CoopInv s := by
  induction h with
  | init =>
    left
    refine ⟨rfl, fun u => ?_⟩
    by_cases hu : u < tasks.length
    · rw [List.getD_eq_getElem _ _ hu]
      exact sourceTask_atomicT (hsrc _ (List.getElem_mem hu))
    · rw [List.getD_eq_default _ _ (le_of_not_lt hu)]
      rfl
  | step _ hp ih => exact coopInv_preserved ih hp

/-! ### Lemmas: the bounded turn loop -/

theorem addCtx_activeChannels (r : RouterState) (a b : String) :
    (addCtx r a b).activeChannels = r.activeChannels := rfl

theorem addCtx_tools (r : RouterState) (a b : String) :
    (addCtx r a b).tools = r.tools := rfl

theorem sendToChannel_length_le (r : RouterState) (text : String) (source : Option String) :
    (sendToChannel r text source).length ≤ 1 := by
  unfold sendToChannel
  rcases getOutputChannel r source with ⟨oc, tgt⟩
  cases oc <;> simp

theorem runLoop_zero_error {prov : Provider} {base : Nat} {src : String}
    {r : RouterState} {calls : Nat} {e : String}
    (hp : prov (base + calls) (addCtx r "user" errorInjectionText).cm.history = .error e) :
    runLoop prov base src 0 r calls =
      ⟨addCtx r "user" errorInjectionText, [], calls + 1, some e⟩ := by
  simp only [runLoop, hp]

theorem runLoop_zero_ok {prov : Provider} {base : Nat} {src : String}
    {r : RouterState} {calls : Nat} {fin : String}
    (hp : prov (base + calls) (addCtx r "user" errorInjectionText).cm.history = .ok fin) :
    runLoop prov base src 0 r calls =
      ⟨addCtx r "user" errorInjectionText,
        sendToChannel (addCtx r "user" errorInjectionText) fin (some src),
        calls + 1, none⟩ := by
  simp only [runLoop, hp]

theorem runLoop_succ_error {prov : Provider} {base : Nat} {src : String}
    {n : Nat} {r : RouterState} {calls : Nat} {e : String}
    (hp : prov (base + calls) r.cm.history = .error e) :
    runLoop prov base src (n + 1) r calls = ⟨r, [], calls + 1, some e⟩ := by
  simp only [runLoop, hp]

theorem runLoop_succ_ok_none {prov : Provider} {base : Nat} {src : String}
    {n : Nat} {r : RouterState} {calls : Nat} {resp : String}
    (hp : prov (base + calls) r.cm.history = .ok resp)
    (hq : parseToolCallJson resp = none) :
    runLoop prov base src (n + 1) r calls =
      ⟨addCtx r "assistant" resp,
        sendToChannel (addCtx r "assistant" resp) resp (some src),
        calls + 1, none⟩ := by
  simp only [runLoop, hp, hq]

theorem runLoop_succ_ok_some {prov : Provider} {base : Nat} {src : String}
    {n : Nat} {r : RouterState} {calls : Nat} {resp : String} {j : Json}
    (hp : prov (base + calls) r.cm.history = .ok resp)
    (hq : parseToolCallJson resp = some j) :
    runLoop prov base src (n + 1) r calls =
      runLoop prov base src n
        (addCtx (addCtx r "assistant" resp) "user"
          (toolResultEntry (addCtx r "assistant" resp).tools j))
        (calls + 1) := by
  simp only [runLoop, hp, hq]

theorem runLoop_calls_le (prov : Provider) (base : Nat) (src : String) :
    ∀ (fuel : Nat) (r : RouterState) (calls : Nat),
    (runLoop prov base src fuel r calls).calls ≤ calls + fuel + 1 := by
  intro fuel
  induction fuel with
  | zero =>
    intro r calls
    cases hp : prov (base + calls) (addCtx r "user" errorInjectionText).cm.history with
    | error e => rw [runLoop_zero_error hp]
    | ok fin => rw [runLoop_zero_ok hp]
  | succ n ih =>
    intro r calls
    cases hp : prov (base + calls) r.cm.history with
    | error e =>
      rw [runLoop_succ_error hp]
      show calls + 1 ≤ calls + (n + 1) + 1
      omega
    | ok resp =>
      cases hq : parseToolCallJson resp with
      | none =>
        rw [runLoop_succ_ok_none hp hq]
        show calls + 1 ≤ calls + (n + 1) + 1
        omega
      | some j =>
        rw [runLoop_succ_ok_some hp hq]
        have := ih (addCtx (addCtx r "assistant" resp) "user"
          (toolResultEntry (addCtx r "assistant" resp).tools j)) (calls + 1)
        omega

theorem runLoop_calls_ge (prov : Provider) (base : Nat) (src : String) :
    ∀ (fuel : Nat) (r : RouterState) (calls : Nat),
    calls + 1 ≤ (runLoop prov base src fuel r calls).calls := by
  intro fuel
  induction fuel with
  | zero =>
    intro r calls
    cases hp : prov (base + calls) (addCtx r "user" errorInjectionText).cm.history with
    | error e => rw [runLoop_zero_error hp]
    | ok fin => rw [runLoop_zero_ok hp]
  | succ n ih =>
    intro r calls
    cases hp : prov (base + calls) r.cm.history with
    | error e => rw [runLoop_succ_error hp]
    | ok resp =>
      cases hq : parseToolCallJson resp with
      | none => rw [runLoop_succ_ok_none hp hq]
      | some j =>
        rw [runLoop_succ_ok_some hp hq]
        have := ih (addCtx (addCtx r "assistant" resp) "user"
          (toolResultEntry (addCtx r "assistant" resp).tools j)) (calls + 1)
        omega

theorem runLoop_deliveries_le (prov : Provider) (base : Nat) (src : String) :
    ∀ (fuel : Nat) (r : RouterState) (calls : Nat),
    (runLoop prov base src fuel r calls).deliveries.length ≤ 1 := by
  intro fuel
  induction fuel with
  | zero =>
    intro r calls
    cases hp : prov (base + calls) (addCtx r "user" errorInjectionText).cm.history with
    | error e =>
      rw [runLoop_zero_error hp]
      exact Nat.zero_le 1
    | ok fin =>
      rw [runLoop_zero_ok hp]
      exact sendToChannel_length_le _ fin (some src)
  | succ n ih =>
    intro r calls
    cases hp : prov (base + calls) r.cm.history with
    | error e =>
      rw [runLoop_succ_error hp]
      exact Nat.zero_le 1
    | ok resp =>
      cases hq : parseToolCallJson resp with
      | none =>
        rw [runLoop_succ_ok_none hp hq]
        exact sendToChannel_length_le _ resp (some src)
      | some j => rw [runLoop_succ_ok_some hp hq]; exact ih _ _

theorem runLoop_activeChannels (prov : Provider) (base : Nat) (src : String) :
    ∀ (fuel : Nat) (r : RouterState) (calls : Nat),
    (runLoop prov base src fuel r calls).router.activeChannels = r.activeChannels := by
  intro fuel
  induction fuel with
  | zero =>
    intro r calls
    cases hp : prov (base + calls) (addCtx r "user" errorInjectionText).cm.history with
    | error e => rw [runLoop_zero_error hp]; rfl
    | ok fin => rw [runLoop_zero_ok hp]; rfl
  | succ n ih =>
    intro r calls
    cases hp : prov (base + calls) r.cm.history with
    | error e => rw [runLoop_succ_error hp]
    | ok resp =>
      cases hq : parseToolCallJson resp with
      | none => rw [runLoop_succ_ok_none hp hq]; rfl
      | some j => rw [runLoop_succ_ok_some hp hq]; exact ih _ _

theorem getLast?_drop_of_lt {α : Type} (l : List α) (n : Nat) (h : n < l.length) :
    (l.drop n).getLast? = l.getLast? := by
  have hne : l.drop n ≠ [] := by
    intro hc
    have := List.length_drop n l
    rw [hc] at this
    simp at this
    omega
  conv_rhs => rw [← List.take_append_drop n l]
  rw [List.getLast?_append_of_ne_nil _ hne]

/-- `getLast?` survives the `lst[-n:]` trim. -/
theorem pySliceLastN_getLast? {α : Type} (l : List α) (n : Nat) (h : l ≠ []) :
    (pySliceLastN l n).getLast? = l.getLast? := by
  unfold pySliceLastN
  by_cases hn : n = 0
  · simp [hn]
  · simp only [hn, if_false]
    by_cases hlen : l.length ≤ n
    · have h0 : l.length - n = 0 := by omega
      rw [h0, List.drop_zero]
    · exact getLast?_drop_of_lt l _ (by
        have : 0 < l.length := List.length_pos.mpr h
        omega)

theorem getLast?_snocEq {α : Type} (l : List α) (m : α) :
    (l ++ [m]).getLast? = some m := by
  rw [List.getLast?_append_of_ne_nil _ (by simp)]
  rfl

theorem addMessage_getLast? (cm : CMState) (a b : String) :
    (addMessage cm (.str a) (.str b)).history.getLast? = some ⟨a, b⟩ := by
  simp only [addMessage]
  split
  · rw [pySliceLastN_getLast? _ _ (by simp)]
    exact getLast?_snocEq _ _
  · exact getLast?_snocEq _ _

theorem addCtx_history_getLast? (r : RouterState) (a b : String) :
    (addCtx r a b).cm.history.getLast? = some ⟨a, b⟩ :=
  addMessage_getLast? r.cm a b

/-- The post-loop injection path: with a provider that keeps returning
tool-call outputs for the loop's range and answers the final call, the loop
makes exactly `fuel + 1` further calls, ends with the `[SYSTEM NOTE ...]`
user entry appended, and delivers the final call's raw output. -/
theorem runLoop_exhaust (prov : Provider) (base : Nat) (src : String) :
    ∀ (fuel : Nat) (r : RouterState) (calls : Nat),
    (∀ i h, calls ≤ i → i ≤ calls + fuel → ∃ s, prov (base + i) h = .ok s) →
    (∀ i h s, calls ≤ i → i < calls + fuel → prov (base + i) h = .ok s →
      (parseToolCallJson s).isSome = true) →
    ∃ (r' : RouterState) (s : String),
      runLoop prov base src fuel r calls =
        ⟨r', sendToChannel r' s (some src), calls + fuel + 1, none⟩ ∧
      r'.cm.history.getLast? = some ⟨"user", errorInjectionText⟩ ∧
      prov (base + (calls + fuel)) r'.cm.history = .ok s ∧
      r'.activeChannels = r.activeChannels := by
  intro fuel
  induction fuel with
  | zero =>
    intro r calls hok _
    obtain ⟨s, hs⟩ := hok calls (addCtx r "user" errorInjectionText).cm.history
      (le_refl _) (by omega)
    refine ⟨addCtx r "user" errorInjectionText, s, ?_, ?_, ?_, rfl⟩
    · exact runLoop_zero_ok hs
    · exact addCtx_history_getLast? _ _ _
    · simpa using hs
  | succ n ih =>
    intro r calls hok htool
    obtain ⟨s0, hs0⟩ := hok calls r.cm.history (le_refl _) (by omega)
    have hps : (parseToolCallJson s0).isSome = true :=
      htool calls r.cm.history s0 (le_refl _) (by omega) hs0
    obtain ⟨j, hj⟩ := Option.isSome_iff_exists.mp hps
    obtain ⟨r', s, heq, hlast, hfin, hch⟩ := ih
      (addCtx (addCtx r "assistant" s0) "user"
        (toolResultEntry (addCtx r "assistant" s0).tools j))
      (calls + 1)
      (fun i h hi1 hi2 => hok i h (by omega) (by omega))
      (fun i h s hi1 hi2 hp => htool i h s (by omega) (by omega) hp)
    refine ⟨r', s, ?_, hlast, ?_, ?_⟩
    · rw [runLoop_succ_ok_some hs0 hj, heq]
      congr 1
      omega
    · have : base + (calls + 1 + n) = base + (calls + (n + 1)) := by omega
      rw [this] at hfin
      exact hfin
    · rw [hch]
      simp [addCtx_activeChannels]

/-- The trim `lst[-n:]` keeps any suffix not longer than `n`. -/
theorem pySliceLastN_sfx {α : Type} (p s : List α) (n : Nat) (hn : n ≠ 0)
    (hs : s.length ≤ n) : ∃ p', pySliceLastN (p ++ s) n = p' ++ s := by
  unfold pySliceLastN
  simp only [hn, if_false]
  by_cases hle : (p ++ s).length ≤ n
  · have h0 : (p ++ s).length - n = 0 := by omega
    exact ⟨p, by rw [h0, List.drop_zero]⟩
  · have hk : (p ++ s).length - n ≤ p.length := by
      simp only [List.length_append] at *
      omega
    exact ⟨p.drop ((p ++ s).length - n), List.drop_append_of_le_length hk⟩

/-- `add_message` preserves any context suffix of fewer than 100 entries,
extending it with the appended entry. -/
theorem addMessage_history_sfx {cm : CMState} {p s : List Msg} (a b : String)
    (h : cm.history = p ++ s) (hs : s.length + 1 ≤ maxHistoryLimit) :
    ∃ p', (addMessage cm (.str a) (.str b)).history = p' ++ (s ++ [⟨a, b⟩]) := by
  simp only [addMessage, h]
  split
  · have := pySliceLastN_sfx p (s ++ [(⟨a, b⟩ : Msg)]) maxHistoryLimit
      (by decide) (by simpa using hs)
    simpa [List.append_assoc] using this
  · exact ⟨p, by simp [List.append_assoc]⟩

theorem addCtx_history_sfx {r : RouterState} {p s : List Msg} (a b : String)
    (h : r.cm.history = p ++ s) (hs : s.length + 1 ≤ maxHistoryLimit) :
    ∃ p', (addCtx r a b).cm.history = p' ++ (s ++ [⟨a, b⟩]) :=
  addMessage_history_sfx a b h hs

/-- A non-empty message goes through the standard turn pipeline. -/
theorem processMessageFrom_ne_empty (prov : Provider) (base : Nat)
    (r0 : RouterState) (m src : String) (hm : m ≠ "") :
    processMessageFrom prov base r0 m src =
      runLoop prov base src maxIterations
        (addCtx { r0 with lastChannelName := some src } "user" m) 0 := by
  simp [processMessageFrom, hm]

/-- A source-named, non-telegram registered channel resolves directly. -/
theorem sendToChannel_found {r : RouterState} {src : String} {ch : Channel}
    (hs : src ≠ "")
    (hfind : r.activeChannels.find? (fun c => c.name == src) = some ch)
    (hn : ch.name ≠ "telegram_bot") (text : String) :
    sendToChannel r text (some src) = [⟨ch.name, text, none⟩] := by
  simp [sendToChannel, getOutputChannel, pyOrStr, hs, hfind, hn]

/-! ### Lemmas: shape of `_parse_tool_call` successes -/

theorem findToolMarker_isPrefixOf :
    ∀ (cs : List Char) (i : Nat), findToolMarker cs = some i →
    toolMarker.isPrefixOf (cs.drop i) = true := by
  intro cs
  induction cs with
  | nil => intro i h; simp [findToolMarker] at h
  | cons c rest ih =>
    intro i h
    simp only [findToolMarker] at h
    by_cases hp : toolMarker.isPrefixOf (c :: rest) = true
    · rw [if_pos hp] at h
      obtain rfl : (0 : Nat) = i := by simpa using h
      simpa using hp
    · rw [if_neg (by simpa using hp)] at h
      obtain ⟨i', hi', rfl⟩ : ∃ i', findToolMarker rest = some i' ∧ i = i' + 1 := by
        cases hfr : findToolMarker rest with
        | none => rw [hfr] at h; simp at h
        | some k => rw [hfr] at h; simp at h; exact ⟨k, rfl, h.symm⟩
      simpa [List.drop_succ_cons] using ih i' hi'

theorem braceScan_marker (t : List Char) :
    braceScan 0 (toolMarker ++ t) =
      (braceScan 1 t).map (fun s => toolMarker ++ s) := by
  have hstep : braceScan 0 (toolMarker ++ t) =
      ((((((((braceScan 1 t).map (List.cons ':')).map (List.cons '"')).map
        (List.cons 'l')).map (List.cons 'o')).map (List.cons 'o')).map
        (List.cons 't')).map (List.cons '"')).map (List.cons lbrace) := rfl
  rw [hstep]
  cases braceScan 1 t with
  | none => rfl
  | some s => rfl

theorem extractToolSlice_marker {cs slice : List Char}
    (h : extractToolSlice cs = some slice) : ∃ t, slice = toolMarker ++ t := by
  unfold extractToolSlice at h
  cases hf : findToolMarker cs with
  | none => rw [hf] at h; simp at h
  | some i =>
    simp only [hf] at h
    have hpre := findToolMarker_isPrefixOf cs i hf
    obtain ⟨t, ht⟩ : ∃ t, cs.drop i = toolMarker ++ t := by
      obtain ⟨t, ht⟩ := List.isPrefixOf_iff_prefix.mp hpre
      exact ⟨t, ht.symm⟩
    rw [ht, braceScan_marker] at h
    cases hb : braceScan 1 t with
    | none => rw [hb] at h; simp at h
    | some s =>
      rw [hb] at h
      simp only [Option.map_some', Option.some_inj] at h
      exact ⟨s, h.symm⟩

theorem parseObjRest_shape :
    ∀ (fuel : Nat) (acc : List (String × Json)) (cs : List Char)
      (j : Json) (rest : List Char),
    parseObjRest fuel acc cs = some (j, rest) →
    ∃ more, j = .objVal (acc ++ more) := by
  intro fuel
  induction fuel with
  | zero =>
    intro acc cs j rest h
    simp [parseObjRest] at h
  | succ g ih =>
    intro acc cs j rest h
    simp only [parseObjRest] at h
    split at h
    · exact absurd h (by simp)
    · split at h
      · obtain ⟨hj, _⟩ : Json.objVal acc = j ∧ _ := by
          simpa using h
        exact ⟨[], by simp [hj.symm]⟩
      · split at h
        · split at h
          · split at h
            · exact absurd h (by simp)
            · split at h
              · split at h
                · exact absurd h (by simp)
                · obtain ⟨more, hm⟩ := ih _ _ _ _ h
                  exact ⟨_, by simpa [List.append_assoc] using hm⟩
              · exact absurd h (by simp)
          · exact absurd h (by simp)
        · exact absurd h (by simp)

theorem parseJsonVal_marker_shape :
    ∀ (fuel : Nat) (t : List Char) (v : Json) (rest : List Char),
    parseJsonVal fuel (toolMarker ++ t) = some (v, rest) →
    ∃ w fs, v = .objVal (("tool", w) :: fs) := by
  intro fuel t v rest h
  match fuel with
  | 0 => simp [parseJsonVal] at h
  | g + 1 =>
    have h1 : parseJsonVal (g + 1) (toolMarker ++ t) =
        parseObjBody g ('"' :: 't' :: 'o' :: 'o' :: 'l' :: '"' :: ':' :: t) := rfl
    rw [h1] at h
    match g with
    | 0 => simp [parseObjBody] at h
    | g' + 1 =>
      have h2 : parseObjBody (g' + 1) ('"' :: 't' :: 'o' :: 'o' :: 'l' :: '"' :: ':' :: t) =
          (match parseJsonVal g' t with
           | none => none
           | some (w, afterVal) => parseObjRest g' [("tool", w)] afterVal) := rfl
      rw [h2] at h
      cases hv : parseJsonVal g' t with
      | none => rw [hv] at h; simp at h
      | some pr =>
        obtain ⟨w, av⟩ := pr
        simp only [hv] at h
        obtain ⟨more, hm⟩ := parseObjRest_shape g' [("tool", w)] av v rest h
        exact ⟨w, more, by simpa using hm⟩

theorem jsonLoadsChars_marker_shape {t : List Char} {j : Json}
    (h : jsonLoadsChars (toolMarker ++ t) = some j) :
    ∃ w fs, j = .objVal (("tool", w) :: fs) := by
  unfold jsonLoadsChars at h
  cases hp : parseJsonVal (2 * (toolMarker ++ t).length + 8) (toolMarker ++ t) with
  | none => rw [hp] at h; simp at h
  | some pr =>
    obtain ⟨v, rest⟩ := pr
    simp only [hp] at h
    obtain ⟨w, fs, hv⟩ := parseJsonVal_marker_shape _ t v rest hp
    refine ⟨w, fs, ?_⟩
    by_cases hw : (skipWs rest).isEmpty = true
    · rw [if_pos hw] at h
      obtain rfl : v = j := by simpa using h
      exact hv
    · rw [if_neg hw] at h
      simp at h

/-! ### Further helper lemmas -/

/-- `List.isPrefixOf` unpacked into an append. -/
theorem isPrefixOf_append :
    ∀ {l cs : List Char}, l.isPrefixOf cs = true → ∃ t, cs = l ++ t := by
  intro l
  induction l with
  | nil => intro cs _; exact ⟨cs, rfl⟩
  | cons a as ih =>
    intro cs h
    cases cs with
    | nil => simp [List.isPrefixOf] at h
    | cons b bs =>
      simp only [List.isPrefixOf, Bool.and_eq_true, beq_iff_eq] at h
      obtain ⟨t, ht⟩ := ih h.2
      exact ⟨t, by rw [h.1, ht]; rfl⟩

/-- A tool invocation that cannot succeed: the named tool is absent or
disabled, or its `execute` raises. -/
def toolCallFails (tools : List ToolPlugin) (j : Json) : Prop :=
  match enabledLookup tools (jGet j "tool") with
  | none => True
  | some t => ∃ e, t.run ((jGet j "args").getD (.objVal [])) = .error e

theorem executeTool_error_of_fails (tools : List ToolPlugin) (j : Json)
    (h : toolCallFails tools j) :
    ∃ rest, executeTool tools (jGet j "tool") ((jGet j "args").getD (.objVal [])) =
      "Error" ++ rest := by
  unfold toolCallFails at h
  unfold executeTool
  cases hl : enabledLookup tools (jGet j "tool") with
  | none =>
    refine ⟨": Tool '" ++ (pyStrOpt (jGet j "tool") ++ "' not found or not enabled."), ?_⟩
    simp only [hl]
    rfl
  | some t =>
    rw [hl] at h
    obtain ⟨e, he⟩ := h
    refine ⟨((" executing tool '" ++ pyStrOpt (jGet j "tool")) ++ "': ") ++ e, ?_⟩
    simp only [hl, he]
    rfl

theorem getPreferredOutputChannel_mem {r : RouterState} {ch : Channel}
    {tgt : Option String} (h : getPreferredOutputChannel r = (some ch, tgt)) :
    ch ∈ r.activeChannels := by
  have hconsole : ∀ tgt' : Option String,
      ((r.activeChannels.find? (fun c => c.name == "console"), (none : Option String)) =
        ((some ch : Option Channel), tgt')) → ch ∈ r.activeChannels := by
    intro tgt' hh
    cases hc : r.activeChannels.find? (fun c => c.name == "console") with
    | none => rw [hc] at hh; simp at hh
    | some c2 =>
      rw [hc] at hh
      obtain rfl : c2 = ch := by
        simpa using (Prod.ext_iff.mp hh).1
      exact List.mem_of_find?_eq_some hc
  unfold getPreferredOutputChannel at h
  by_cases ht : truthyS r.telegramAdminId = true
  · simp only [ht, if_true] at h
    cases hf : r.activeChannels.find? (fun c => c.name == "telegram_bot" && c.enabled) with
    | none =>
      simp only [hf] at h
      exact hconsole tgt h
    | some c1 =>
      simp only [hf] at h
      obtain rfl : c1 = ch := by
        simpa using (Prod.ext_iff.mp h).1
      exact List.mem_of_find?_eq_some hf
  · have ht' : truthyS r.telegramAdminId = false := by simpa using ht
    simp only [ht', Bool.false_eq_true, if_false] at h
    exact hconsole tgt h

theorem getOutputChannel_mem {r : RouterState} {source : Option String}
    {ch : Channel} {tgt : Option String}
    (h : getOutputChannel r source = (some ch, tgt)) : ch ∈ r.activeChannels := by
  unfold getOutputChannel at h
  cases hpo : pyOrStr source r.lastChannelName with
  | none =>
    simp only [hpo] at h
    exact getPreferredOutputChannel_mem h
  | some tn =>
    simp only [hpo] at h
    by_cases htn : (tn == "") = true
    · simp only [htn, if_true] at h
      exact getPreferredOutputChannel_mem h
    · have htn' : (tn == "") = false := by simpa using htn
      simp only [htn', Bool.false_eq_true, if_false] at h
      cases hf : r.activeChannels.find? (fun c => c.name == tn) with
      | none =>
        simp only [hf] at h
        exact getPreferredOutputChannel_mem h
      | some ch' =>
        simp only [hf] at h
        by_cases hn : (ch'.name == "telegram_bot") = true
        · simp only [hn, if_true] at h
          by_cases ha : truthyS r.telegramAdminId = true
          · simp only [ha, if_true] at h
            obtain rfl : ch' = ch := by
              simpa using (Prod.ext_iff.mp h).1
            exact List.mem_of_find?_eq_some hf
          · have ha' : truthyS r.telegramAdminId = false := by simpa using ha
            simp only [ha', Bool.false_eq_true, if_false] at h
            exact getPreferredOutputChannel_mem h
        · have hn' : (ch'.name == "telegram_bot") = false := by simpa using hn
          simp only [hn', Bool.false_eq_true, if_false] at h
          obtain rfl : ch' = ch := by
            simpa using (Prod.ext_iff.mp h).1
          exact List.mem_of_find?_eq_some hf

theorem runLoop_exn_none {prov : Provider} {base : Nat} {src : String}
    (htot : ∀ i h, ∃ s, prov i h = .ok s) :
    ∀ (fuel : Nat) (r : RouterState) (calls : Nat),
    (runLoop prov base src fuel r calls).exn = none := by
  intro fuel
  induction fuel with
  | zero =>
    intro r calls
    obtain ⟨s, hs⟩ := htot (base + calls) (addCtx r "user" errorInjectionText).cm.history
    rw [runLoop_zero_ok hs]
  | succ n ih =>
    intro r calls
    obtain ⟨s, hs⟩ := htot (base + calls) r.cm.history
    cases hq : parseToolCallJson s with
    | none => rw [runLoop_succ_ok_none hs hq]
    | some j => rw [runLoop_succ_ok_some hs hq]; exact ih _ _

theorem processMessageFrom_calls_ge {prov : Provider} {base : Nat}
    {r : RouterState} {m src : String} (hm : m ≠ "") :
    1 ≤ (processMessageFrom prov base r m src).calls := by
  rw [processMessageFrom_ne_empty prov base r m src hm]
  have := runLoop_calls_ge prov base src maxIterations
    (addCtx { r with lastChannelName := some src } "user" m) 0
  omega

theorem processMessageFrom_exn_none {prov : Provider} {base : Nat}
    {r : RouterState} {m src : String}
    (htot : ∀ i h, ∃ s, prov i h = .ok s) :
    (processMessageFrom prov base r m src).exn = none := by
  by_cases hm : m = ""
  · subst hm; rfl
  · rw [processMessageFrom_ne_empty prov base r m src hm]
    exact runLoop_exn_none htot _ _ _

/-! ### Strings the specification promises (they appear nowhere in the code) -/

/-- The busy notice of spec §4.1/§8.  No code path produces it. -/
def busyNoticeText : String := "currently busy, send stop to cancel"

/-- The interruption notice of spec §4.2/§8.  No code path produces it. -/
def interruptedNoticeText : String := "Task Interrupted"

/-! ### Concrete fixtures for witnesses and counterexamples -/

def consoleChannel : Channel := ⟨"console", true⟩

def consoleRouter : RouterState :=
  ⟨⟨20, [], [], [], []⟩, [consoleChannel], none, [], none⟩

/-- A provider whose replies are "E0", "E1", ... (never a tool call). -/
def provEcho : Provider := fun i _ => .ok ("E" ++ toString i)

/-- A model output invoking the tool `frob` with empty args. -/
def frobCallText : String := "\x7b\"tool\": \"frob\", \"args\": \x7b\x7d\x7d"

/-- A provider that emits tool calls for the whole iteration budget and then
an empty string for the forced final call. -/
def provToolsThenEmpty : Provider := fun i _ =>
  .ok (if i < maxIterations then frobCallText else "")

/-- A provider that emits tool calls for the whole iteration budget and then
a plain final answer. -/
def provToolsThenDone : Provider := fun i _ =>
  .ok (if i < maxIterations then frobCallText else "done")

/-- A tool that raises on every invocation. -/
def boomTool : ToolPlugin := ⟨"frob", true, fun _ => .error "kaput"⟩

def boomRouter : RouterState :=
  ⟨⟨20, [], [], [], []⟩, [consoleChannel], none, [boomTool], none⟩

/-- A provider that raises on every call. -/
def provBoom : Provider := fun _ _ => .error "boom"

/-- The broadcast scenario of spec §8: a registered network channel
(`telegram_bot`, the code's name for the chat-bot transport) with admin id
"42", and a registered console channel. -/
def schedRouter : RouterState :=
  ⟨⟨20, [], [], [], []⟩, [⟨"telegram_bot", true⟩, consoleChannel], none, [], some "42"⟩

/-- A provider replaying a fixed list of responses by call index. -/
def scriptProvider (l : List String) : Provider := fun i _ =>
  match l.get? i with
  | some s => .ok s
  | none => .error "StopIteration"

/-- A model output naming a tool that is not registered. -/
def nopeCallText : String := "\x7b\"tool\": \"nope\"\x7d"

def nopeCallJson : Json := .objVal [("tool", .strVal "nope")]

def provNope : Provider := fun _ _ => .ok nopeCallText

def c1Tasks : List (List TStep) := [sourceLoopTask [(0, 1)], ipcTask 2]

def c5MissText : String := "\x7b \"tool\": \"x\" \x7d"

def c5GoodText : String := "\x7b\"tool\": \"x\"\x7d"

/-! ### The claims -/

/-- C1: for every set of handler tasks generated by the IPC, channel and
scheduler sources, and every cooperative interleaving the single-threaded
event loop admits, at most one turn (one `process_message` invocation) is
in flight at any instant — `process_message` is synchronous, so a started
turn runs to completion before the loop can hand control to any other
handler. -/
theorem C1_single_flight (tasks : List (List TStep))
    (hsrc : ∀ τ ∈ tasks, SourceTask τ) (s : CoopState) (h : Reach tasks s) :
    s.flight.length ≤ 1 := by
  rcases coopInv_of_reach hsrc h with ⟨hf, -⟩ | ⟨i, t, hf, -, -, -⟩ <;> simp [hf]

/-- C1 witness: a console task with one submission interleaved with an IPC
task, stepped into the middle of its turn. -/
theorem C1_single_flight_witness :
    (doStep (doStep ⟨c1Tasks, none, []⟩ 0) 0).flight.length ≤ 1 :=
  C1_single_flight c1Tasks
    (by
      intro τ hτ
      simp only [c1Tasks, List.mem_cons, List.not_mem_nil, or_false] at hτ
      rcases hτ with rfl | rfl
      · exact SourceTask.console [(0, 1)]
      · exact SourceTask.ipc 2)
    _
    (Reach.step (Reach.step Reach.init ⟨by decide, by decide⟩) ⟨by decide, by decide⟩)

/-- C4 counterexample: with the registered channels of the spec's broadcast
scenario (`telegram_bot` with admin target "42" standing for the chatbot,
plus `console`), a scheduler-source delivery of "T" invokes `send_message`
on exactly one channel — the preferred `telegram_bot` — and never on the
console channel, refuting the claimed broadcast to every entry. -/
theorem C4_counterexample :
    sendToChannel schedRouter "T" (some "scheduler") =
      [⟨"telegram_bot", "T", some "42"⟩] ∧
    (sendToChannel schedRouter "T" (some "scheduler")).filter
      (fun d => d.channel == "console") = [] := ⟨rfl, rfl⟩

/-- C4 (amended): `_send_to_channel` performs at most one `send_message`
invocation per delivery, on the single channel chosen by
`get_output_channel` from the registered channels; there is no broadcast
over multiple targets. -/
theorem C4_single_destination (r : RouterState) (text : String)
    (source : Option String) :
    (sendToChannel r text source).length ≤ 1 ∧
    ∀ d ∈ sendToChannel r text source,
      d.text = text ∧ ∃ c ∈ r.activeChannels, d.channel = c.name := by
  refine ⟨sendToChannel_length_le r text source, ?_⟩
  intro d hd
  revert hd
  unfold sendToChannel
  cases hgo : getOutputChannel r source with
  | mk oc tgt =>
    cases oc with
    | none => intro hd; simp at hd
    | some ch =>
      intro hd
      obtain rfl : d = ⟨ch.name, text, tgt⟩ := by simpa using hd
      exact ⟨rfl, ch, getOutputChannel_mem hgo, rfl⟩

/-- C4 witness: the amended statement at the broadcast-scenario fixture. -/
theorem C4_single_destination_witness :
    (⟨"telegram_bot", "T", some "42"⟩ : Delivery).text = "T" ∧
    ∃ c ∈ schedRouter.activeChannels,
      (⟨"telegram_bot", "T", some "42"⟩ : Delivery).channel = c.name :=
  (C4_single_destination schedRouter "T" (some "scheduler")).2
    ⟨"telegram_bot", "T", some "42"⟩ (by decide)

/-- C5 counterexample: on `\x7b "tool": "x" \x7d` the spec's
first-`\x7b`-to-last-`\x7d` parser yields a ToolCall named "x", but the
code's `_parse_tool_call` returns `None`, because the code actually searches
for the literal substring `\x7b"tool":` (no space allowed) rather than
taking the first `\x7b` to the last `\x7d`. -/
theorem C5_counterexample :
    parseToolCallJson c5MissText = none ∧
    specParseToolCall c5MissText =
      some ⟨Json.strVal "x", Json.objVal [], none⟩ := ⟨rfl, rfl⟩

/-- C5 (amended): `_parse_tool_call` returns a parsed object only for texts
containing the literal substring `\x7b"tool":`; when it succeeds, the result
is always a JSON object whose first key is `tool`; with no such substring it
returns `None`; it is a total function (every exception is caught). -/
theorem C5_parse_requires_marker (text : String) :
    (findToolMarker text.toList = none → parseToolCallJson text = none) ∧
    (∀ j, parseToolCallJson text = some j →
      (findToolMarker text.toList).isSome = true ∧
      ∃ w fs, j = Json.objVal (("tool", w) :: fs)) := by
  constructor
  · intro h
    have h' : findToolMarker text.data = none := h
    simp [parseToolCallJson, extractToolSlice, h']
  · intro j hj
    unfold parseToolCallJson at hj
    cases he : extractToolSlice text.toList with
    | none => rw [he] at hj; simp at hj
    | some slice =>
      simp only [he] at hj
      constructor
      · unfold extractToolSlice at he
        cases hf : findToolMarker text.toList with
        | none => rw [hf] at he; simp at he
        | some i => simp [hf]
      · obtain ⟨t, rfl⟩ := extractToolSlice_marker he
        exact jsonLoadsChars_marker_shape hj

/-- C5 witness: the amended statement at a parsed tool call. -/
theorem C5_parse_requires_marker_witness :
    (findToolMarker c5GoodText.toList).isSome = true ∧
    ∃ w fs, Json.objVal [("tool", Json.strVal "x")] =
      Json.objVal (("tool", w) :: fs) :=
  (C5_parse_requires_marker c5GoodText).2
    (Json.objVal [("tool", Json.strVal "x")]) rfl

/-- C7 counterexample: with a provider that raises on its first call, the
turn delivers nothing at all — no provider-error notice reaches any channel;
the exception simply propagates out of `process_message`, so the submission
is dropped silently, contradicting the claimed provider-error notice. -/
theorem C7_counterexample :
    (processMessage provBoom consoleRouter "hi" "console").deliveries = [] ∧
    (processMessage provBoom consoleRouter "hi" "console").exn = some "boom" ∧
    (processMessage provBoom consoleRouter "hi" "console").calls = 1 :=
  ⟨rfl, rfl, rfl⟩

/-- C7 (amended): when the provider raises, the Turn Executor does not
retry — exactly one `chat` call is made — but no error notice is delivered
either: the exception propagates out of `process_message` and the turn
produces no user-visible message. -/
theorem C7_provider_error_propagates (r0 : RouterState) (prov : Provider)
    (m src e : String) (hm : m ≠ "") (he : ∀ i h, prov i h = .error e) :
    (processMessage prov r0 m src).exn = some e ∧
    (processMessage prov r0 m src).deliveries = [] ∧
    (processMessage prov r0 m src).calls = 1 := by
  unfold processMessage
  rw [processMessageFrom_ne_empty prov 0 r0 m src hm]
  rw [show maxIterations = 4 + 1 from rfl]
  rw [runLoop_succ_error (he (0 + 0) _)]
  exact ⟨rfl, rfl, rfl⟩

/-- C7 witness: the amended statement at the always-raising provider. -/
theorem C7_provider_error_propagates_witness :
    (processMessage provBoom consoleRouter "hi" "console").exn = some "boom" ∧
    (processMessage provBoom consoleRouter "hi" "console").deliveries = [] ∧
    (processMessage provBoom consoleRouter "hi" "console").calls = 1 :=
  C7_provider_error_propagates consoleRouter provBoom "hi" "console" "boom"
    (by decide) (fun _ _ => rfl)

/-- C8: when a loop iteration's model output parses to a ToolCall whose
tool is absent, disabled, or raises, the turn does not abort: the loop step
equals appending the assistant output and a user-role
`[TOOL RESULT for ...]` entry carrying the synthesized error string (which
begins with "Error"), and the loop goes on to a further model call. -/
theorem C8_tool_failure_recovered (prov : Provider) (base : Nat) (src : String)
    (n calls : Nat) (r : RouterState) (s : String) (j : Json)
    (hp : prov (base + calls) r.cm.history = .ok s)
    (hq : parseToolCallJson s = some j)
    (hfail : toolCallFails r.tools j) :
    runLoop prov base src (n + 1) r calls =
      runLoop prov base src n
        (addCtx (addCtx r "assistant" s) "user" (toolResultEntry r.tools j))
        (calls + 1) ∧
    (∃ rest, executeTool r.tools (jGet j "tool")
      ((jGet j "args").getD (.objVal [])) = "Error" ++ rest) ∧
    calls + 2 ≤ (runLoop prov base src (n + 1) r calls).calls := by
  have heq := @runLoop_succ_ok_some prov base src n r calls s j hp hq
  refine ⟨heq, executeTool_error_of_fails _ _ hfail, ?_⟩
  rw [heq]
  have h1 := runLoop_calls_ge prov base src n
    (addCtx (addCtx r "assistant" s) "user"
      (toolResultEntry (addCtx r "assistant" s).tools j)) (calls + 1)
  omega

/-- C8 witness: a model output naming the unregistered tool `nope`. -/
theorem C8_tool_failure_recovered_witness :
    runLoop provNope 0 "console" 1 consoleRouter 0 =
      runLoop provNope 0 "console" 0
        (addCtx (addCtx consoleRouter "assistant" nopeCallText) "user"
          (toolResultEntry consoleRouter.tools nopeCallJson))
        1 ∧
    (∃ rest, executeTool consoleRouter.tools (jGet nopeCallJson "tool")
      ((jGet nopeCallJson "args").getD (.objVal [])) = "Error" ++ rest) ∧
    0 + 2 ≤ (runLoop provNope 0 "console" 1 consoleRouter 0).calls :=
  C8_tool_failure_recovered provNope 0 "console" 0 0 consoleRouter
    nopeCallText nopeCallJson rfl rfl trivial

/-- C2 counterexample: a second interactive submission arriving while the
first turn is in flight (queued by the event loop) is not rejected: it gets
its own full turn — one model call, answered with the model's reply "E1" —
and no "currently busy, send stop to cancel" notice is ever delivered. -/
theorem C2_counterexample :
    ((runSubmissions provEcho consoleRouter 0
        [("console", "hello"), ("console", "again")]).2.map
      (fun t => t.calls) = [1, 1]) ∧
    (((runSubmissions provEcho consoleRouter 0
        [("console", "hello"), ("console", "again")]).2.flatMap
      (fun t => t.deliveries)).map (fun d => d.text) = ["E0", "E1"]) ∧
    busyNoticeText ∉ (["E0", "E1"] : List String) := by
  refine ⟨?_, ?_, ?_⟩ <;> decide

/-- C2 (amended): the code has no busy-rejection path: every queued
submission is admitted as its own turn, run to completion in arrival order
(the model is consulted at least once per non-empty submission, and with a
non-raising provider each turn completes normally); no busy notice exists
anywhere in the code. -/
theorem C2_no_busy_rejection (r0 : RouterState) (prov : Provider)
    (src1 src2 m1 m2 : String) (h1 : m1 ≠ "") (h2 : m2 ≠ "")
    (htot : ∀ i h, ∃ s, prov i h = .ok s) :
    (runSubmissions prov r0 0 [(src1, m1), (src2, m2)]).2.length = 2 ∧
    ∀ t ∈ (runSubmissions prov r0 0 [(src1, m1), (src2, m2)]).2,
      1 ≤ t.calls ∧ t.exn = none := by
  have hmem : (runSubmissions prov r0 0 [(src1, m1), (src2, m2)]).2 =
      [processMessageFrom prov 0 r0 m1 src1,
       processMessageFrom prov (0 + (processMessageFrom prov 0 r0 m1 src1).calls)
         (processMessageFrom prov 0 r0 m1 src1).router m2 src2] := rfl
  rw [hmem]
  refine ⟨rfl, ?_⟩
  intro t ht
  rcases List.mem_cons.mp ht with rfl | ht2
  · exact ⟨processMessageFrom_calls_ge h1, processMessageFrom_exn_none htot⟩
  · rcases List.mem_cons.mp ht2 with rfl | h3
    · exact ⟨processMessageFrom_calls_ge h2, processMessageFrom_exn_none htot⟩
    · simp at h3

/-- C2 witness: the amended statement at the echo provider. -/
theorem C2_no_busy_rejection_witness :
    (runSubmissions provEcho consoleRouter 0
        [("console", "hello"), ("console", "again")]).2.length = 2 ∧
    ∀ t ∈ (runSubmissions provEcho consoleRouter 0
        [("console", "hello"), ("console", "again")]).2,
      1 ≤ t.calls ∧ t.exn = none :=
  C2_no_busy_rejection consoleRouter provEcho "console" "console" "hello" "again"
    (by decide) (by decide) (fun i _ => ⟨"E" ++ toString i, rfl⟩)

/-- C3 counterexample: submitting the literal "stop" after a turn creates a
new ordinary turn for it (one model call, answered "E1" and delivered), the
prior turn is untouched (its answer "E0" was delivered), "stop" lands in
the context as a normal user entry, and no "interrupted" notice is
delivered to anyone. -/
theorem C3_counterexample :
    ((runSubmissions provEcho consoleRouter 0
        [("console", "task"), ("console", "stop")]).2.map
      (fun t => t.calls) = [1, 1]) ∧
    ((runSubmissions provEcho consoleRouter 0
        [("console", "task"), ("console", "stop")]).1.cm.history =
      [⟨"user", "task"⟩, ⟨"assistant", "E0"⟩,
       ⟨"user", "stop"⟩, ⟨"assistant", "E1"⟩]) ∧
    (((runSubmissions provEcho consoleRouter 0
        [("console", "task"), ("console", "stop")]).2.flatMap
      (fun t => t.deliveries)).map (fun d => d.text) = ["E0", "E1"]) ∧
    interruptedNoticeText ∉ (["E0", "E1"] : List String) := by
  refine ⟨?_, ?_, ?_, ?_⟩ <;> decide

/-- C3 (amended): `process_message` gives the literal "stop" no special
treatment — any non-empty message, "stop" included, enters the standard
turn pipeline (appended as a user entry, then the bounded model loop), and
the model is consulted at least once; there is no cancellation path and no
interrupted notice. -/
theorem C3_stop_not_special (r0 : RouterState) (prov : Provider)
    (src m : String) (hm : m ≠ "") :
    processMessage prov r0 m src =
      runLoop prov 0 src maxIterations
        (addCtx { r0 with lastChannelName := some src } "user" m) 0 ∧
    1 ≤ (processMessage prov r0 m src).calls :=
  ⟨processMessageFrom_ne_empty prov 0 r0 m src hm, processMessageFrom_calls_ge hm⟩

/-- C3 witness: the amended statement at the message "stop". -/
theorem C3_stop_not_special_witness :
    processMessage provEcho consoleRouter "stop" "console" =
      runLoop provEcho 0 "console" maxIterations
        (addCtx { consoleRouter with lastChannelName := some "console" }
          "user" "stop") 0 ∧
    1 ≤ (processMessage provEcho consoleRouter "stop" "console").calls :=
  C3_stop_not_special consoleRouter provEcho "console" "stop" (by decide)

/-- C6 counterexample: with a tool that raises on every call and a model
that emits tool calls for the whole budget and then an empty string, the
turn terminates within the budget but the delivered final message is empty,
refuting the claimed non-empty final message. -/
theorem C6_counterexample :
    ((processMessage provToolsThenEmpty boomRouter "go" "console").deliveries.map
      (fun d => d.text) = [""]) ∧
    (processMessage provToolsThenEmpty boomRouter "go" "console").calls =
      maxIterations + 1 := by
  refine ⟨?_, ?_⟩ <;> decide

/-- C6 (amended): whatever the model and tools return, an admitted turn
makes at most `max_iterations + 1 = 6` model calls; when every loop output
parses as a tool call, the `[SYSTEM NOTE ...]` is appended as the final
user entry, exactly one more model call is made, its raw output is not
parsed for tool calls and is delivered as-is to the source channel — it
may be empty. -/
theorem C6_budget_termination (r0 : RouterState) (prov : Provider)
    (m src : String) (ch : Channel)
    (hm : m ≠ "") (hsrc : src ≠ "")
    (hch : r0.activeChannels.find? (fun c => c.name == src) = some ch)
    (hntg : ch.name ≠ "telegram_bot")
    (hok : ∀ i h, i ≤ maxIterations → ∃ s, prov i h = .ok s)
    (htool : ∀ i h s, i < maxIterations → prov i h = .ok s →
      (parseToolCallJson s).isSome = true) :
    ∃ fin : String,
      (processMessage prov r0 m src).exn = none ∧
      (processMessage prov r0 m src).calls = maxIterations + 1 ∧
      (processMessage prov r0 m src).router.cm.history.getLast? =
        some ⟨"user", errorInjectionText⟩ ∧
      prov maxIterations (processMessage prov r0 m src).router.cm.history =
        .ok fin ∧
      (processMessage prov r0 m src).deliveries = [⟨ch.name, fin, none⟩] := by
  unfold processMessage
  rw [processMessageFrom_ne_empty prov 0 r0 m src hm]
  obtain ⟨r', s, heq, hlast, hfin, hchan⟩ :=
    runLoop_exhaust prov 0 src maxIterations
      (addCtx { r0 with lastChannelName := some src } "user" m) 0
      (fun i h _ hi2 => by
        obtain ⟨s, hs⟩ := hok i h (by omega)
        exact ⟨s, by simpa using hs⟩)
      (fun i h s _ hi2 hp => htool i h s (by omega) (by simpa using hp))
  refine ⟨s, ?_, ?_, ?_, ?_, ?_⟩
  · rw [heq]
  · rw [heq]
    show 0 + maxIterations + 1 = maxIterations + 1
    omega
  · rw [heq]; exact hlast
  · rw [heq]; exact hfin
  · rw [heq]; exact sendToChannel_found hsrc (by rw [hchan]; exact hch) hntg s

/-- C6 witness: the amended statement at the raising tool and the
tool-calls-then-done provider. -/
theorem C6_budget_termination_witness :
    ∃ fin : String,
      (processMessage provToolsThenDone boomRouter "go" "console").exn = none ∧
      (processMessage provToolsThenDone boomRouter "go" "console").calls =
        maxIterations + 1 ∧
      (processMessage provToolsThenDone boomRouter "go"
        "console").router.cm.history.getLast? =
        some ⟨"user", errorInjectionText⟩ ∧
      provToolsThenDone maxIterations
        (processMessage provToolsThenDone boomRouter "go"
          "console").router.cm.history = .ok fin ∧
      (processMessage provToolsThenDone boomRouter "go" "console").deliveries =
        [⟨consoleChannel.name, fin, none⟩] :=
  C6_budget_termination boomRouter provToolsThenDone "go" "console" consoleChannel
    (by decide) (by decide) rfl (by decide)
    (fun i h _ => ⟨if i < maxIterations then frobCallText else "done", rfl⟩)
    (fun i h s hi hp => by
      have hs : frobCallText = s := by
        have hp' := hp
        unfold provToolsThenDone at hp'
        rw [if_pos hi] at hp'
        exact Except.ok.inj hp'
      rw [← hs]
      decide)

/-- Six successive `add_message` calls append their entries in order as the
final suffix of the history (older entries may be trimmed from the front,
never reordered). -/
theorem addCtx6_sfx (rA : RouterState) (a1 b1 a2 b2 a3 b3 a4 b4 a5 b5 a6 b6 : String) :
    ∃ pre,
      (addCtx (addCtx (addCtx (addCtx (addCtx (addCtx rA a1 b1) a2 b2) a3 b3)
        a4 b4) a5 b5) a6 b6).cm.history =
      pre ++ [⟨a1, b1⟩, ⟨a2, b2⟩, ⟨a3, b3⟩, ⟨a4, b4⟩, ⟨a5, b5⟩, ⟨a6, b6⟩] := by
  have h0 : rA.cm.history = rA.cm.history ++ ([] : List Msg) := by simp
  obtain ⟨p1, hp1⟩ := addCtx_history_sfx a1 b1 h0 (by simp [maxHistoryLimit])
  obtain ⟨p2, hp2⟩ := addCtx_history_sfx a2 b2 hp1 (by simp [maxHistoryLimit])
  obtain ⟨p3, hp3⟩ := addCtx_history_sfx a3 b3 hp2 (by simp [maxHistoryLimit])
  obtain ⟨p4, hp4⟩ := addCtx_history_sfx a4 b4 hp3 (by simp [maxHistoryLimit])
  obtain ⟨p5, hp5⟩ := addCtx_history_sfx a5 b5 hp4 (by simp [maxHistoryLimit])
  obtain ⟨p6, hp6⟩ := addCtx_history_sfx a6 b6 hp5 (by simp [maxHistoryLimit])
  exact ⟨p6, by simpa using hp6⟩

set_option maxHeartbeats 1000000 in
/-- C9: a turn whose model outputs are two tool calls and then a plain
answer appends, in order: user(input), assistant(tool-call-1),
user(tool-result-1), assistant(tool-call-2), user(tool-result-2),
assistant(final) — they form the final suffix of the context history, with
no reordering. -/
theorem C9_context_ordering (r0 : RouterState) (m src s1 s2 s3 : String)
    (j1 j2 : Json) (hm : m ≠ "")
    (h1 : parseToolCallJson s1 = some j1)
    (h2 : parseToolCallJson s2 = some j2)
    (h3 : parseToolCallJson s3 = none) :
    ∃ pre,
      (processMessage (scriptProvider [s1, s2, s3]) r0 m src).router.cm.history =
        pre ++ [⟨"user", m⟩, ⟨"assistant", s1⟩,
                ⟨"user", toolResultEntry r0.tools j1⟩, ⟨"assistant", s2⟩,
                ⟨"user", toolResultEntry r0.tools j2⟩, ⟨"assistant", s3⟩] := by
  unfold processMessage
  rw [processMessageFrom_ne_empty _ _ _ _ _ hm]
  have hs1 : ∀ h, scriptProvider [s1, s2, s3] (0 + 0) h = .ok s1 := fun _ => rfl
  have hs2 : ∀ h, scriptProvider [s1, s2, s3] (0 + (0 + 1)) h = .ok s2 := fun _ => rfl
  have hs3 : ∀ h, scriptProvider [s1, s2, s3] (0 + (0 + 1 + 1)) h = .ok s3 :=
    fun _ => rfl
  rw [show maxIterations = 4 + 1 from rfl]
  rw [runLoop_succ_ok_some (hs1 _) h1]
  rw [show (4 : Nat) = 3 + 1 from rfl]
  rw [runLoop_succ_ok_some (hs2 _) h2]
  rw [show (3 : Nat) = 2 + 1 from rfl]
  rw [runLoop_succ_ok_none (hs3 _) h3]
  exact addCtx6_sfx _ "user" m "assistant" s1 "user" _ "assistant" s2 "user" _
    "assistant" s3

/-- C9 witness: two calls to the unregistered tool `nope`, then "done". -/
theorem C9_context_ordering_witness :
    ∃ pre,
      (processMessage (scriptProvider [nopeCallText, nopeCallText, "done"])
        consoleRouter "hi" "console").router.cm.history =
        pre ++ [⟨"user", "hi"⟩, ⟨"assistant", nopeCallText⟩,
                ⟨"user", toolResultEntry consoleRouter.tools nopeCallJson⟩,
                ⟨"assistant", nopeCallText⟩,
                ⟨"user", toolResultEntry consoleRouter.tools nopeCallJson⟩,
                ⟨"assistant", "done"⟩] :=
  C9_context_ordering consoleRouter "hi" "console" nopeCallText nopeCallText
    "done" nopeCallJson nopeCallJson (by decide) rfl rfl rfl

/-- C10: with `max_messages_limit = 0` (reachable: `update_limit` accepts 0
and the config value is read unchecked), one `add_message("user", "hi")`
leaves one entry in the short-term list — `lst[-0:]` is the whole list in
Python, so the trim never removes anything — violating the claimed
`len(messages) ≤ max_messages_limit` invariant and the class's own
docstring. -/
theorem C10_limit_zero_bug :
    (addMessage ⟨0, [], [], [], []⟩ (.str "user") (.str "hi")).messages =
      [⟨"user", "hi"⟩] ∧
    (addMessage ⟨0, [], [], [], []⟩ (.str "user") (.str "hi")).maxMessagesLimit = 0 ∧
    (addMessage ⟨0, [], [], [], []⟩ (.str "user") (.str "hi")).maxMessagesLimit <
      (addMessage ⟨0, [], [], [], []⟩ (.str "user") (.str "hi")).messages.length := by
  refine ⟨?_, rfl, ?_⟩ <;> decide

end IronClaw
